import Mathlib

/-!
Shallow embedding of `nodriver/core/connection.py` (the CDP connection layer):
`ProtocolException`, `Transaction.__call__`, the handler registry
(`add_handler` / `remove_handler`), the reconciliation pass
(`_register_handlers`), the listener loop (`_listener`) and the id
assignment in `send`.

Python dicts are modelled as association lists preserving insertion order,
modules/namespaces (`cdp.<domain>`) by an abstract `Domain` type with the
two always-on members `cdp.target` and `cdp.storage` distinguished, event
classes and callback objects by natural-number identities, and exceptions
by `Except` / explicit outcome data.
-/

namespace Nodriver

/-- A CDP namespace module (`cdp.target`, `cdp.storage`, or any other
`cdp.<domain>` module). Identity comparison of Python module objects is
modelled by decidable equality. -/
inductive Domain
  | target
  | storage
  | other (n : Nat)
deriving DecidableEq, Repr

/-- The tuple `(cdp.target, cdp.storage)` tested at the
`# by default enabled` branch of `_register_handlers`. -/
def alwaysOnDomains : List Domain := [.target, .storage]

/-! ## ProtocolException (dict-payload branch) -/

/-- The structured error payload `response["error"]`: a dict possibly
carrying `message` and `code` entries (`args[0].get("message", None)`,
`args[0].get("code", None)`). -/
structure ErrPayload where
  msg : Option String
  code : Option Int
deriving DecidableEq, Repr

/-- `ProtocolException` state after `__init__` has run: the `message` and
`code` attributes. Only the `isinstance(args[0], dict)` branch is needed
by `Transaction.__call__`, which always passes `response["error"]`
(a dict). -/
structure ProtocolException where
  message : Option String
  code : Option Int
deriving DecidableEq, Repr

/-- `ProtocolException.__init__` on a dict argument: copies the optional
`message` and `code` entries. -/
def ProtocolException.ofDict (d : ErrPayload) : ProtocolException :=
  { message := d.msg, code := d.code }

/-- Python `str(x)` on an optional string attribute (`None` prints as
`"None"`). -/
def pyStrOptString : Option String → String
  | none => "None"
  | some s => s

/-- Python `str(x)` on an optional integer attribute. -/
def pyStrOptInt : Option Int → String
  | none => "None"
  | some n => toString n

/-- Python truthiness of the `code` attribute (`if self.code`): `None`
and `0` are falsy, every other integer truthy. -/
def pyTruthyOptInt : Option Int → Bool
  | none => false
  | some n => n != 0

/-- `ProtocolException.__str__`:
`f"{self.message} [code: {self.code}]" if self.code else f"{self.message}"`. -/
def ProtocolException.str (e : ProtocolException) : String :=
  if pyTruthyOptInt e.code then
    pyStrOptString e.message ++ " [code: " ++ pyStrOptInt e.code ++ "]"
  else
    pyStrOptString e.message

/-! ## Transaction completion (`Transaction.__call__`) -/

/-- The future-like completion slot of a `Transaction`
(`asyncio.Future`): pending, resolved with a value, or rejected with a
`ProtocolException`. -/
inductive Slot (V : Type)
  | pending
  | resolved (v : V)
  | rejected (e : ProtocolException)
deriving DecidableEq, Repr

/-- `self.done()`. -/
def Slot.isDone {V : Type} : Slot V → Bool
  | .pending => false
  | _ => true

/-- Outcome of `self.__cdp_obj__.send(raw)` (the codec second step): the
generator either raises `KeyError k` (an expected key missing from the
raw result) or raises `StopIteration` whose value is the decoded
result. -/
inductive ParseOutcome (V : Type)
  | keyError (k : String)
  | done (v : V)

/-- An inbound reply frame as seen by `Transaction.__call__`: the
optional `error` and `result` entries of the decoded JSON message. -/
structure Response (Raw : Type) where
  error : Option ErrPayload
  result : Option Raw

/-- `Transaction.__call__(**response)`. An uncaught exception (the
re-raised `KeyError` of the malformed-result path) is modelled as
`Except.error`; a normal return yields the slot after the call. -/
def Transaction.call {V Raw : Type} (parse : Raw → ParseOutcome V)
    (slot : Slot V) (resp : Response Raw) : Except String (Slot V) :=
  -- check if already completed to avoid InvalidStateError
  if slot.isDone then .ok slot
  else
    match resp.error with
    | some err =>
        -- set exception and bail out (single-threaded: the
        -- InvalidStateError race branch is unreachable, slot is pending)
        .ok (.rejected (ProtocolException.ofDict err))
    | none =>
        match resp.result with
        | none =>
            -- response["result"] itself raises KeyError, re-raised
            .error "KeyError: result"
        | some r =>
            match parse r with
            | .keyError k =>
                -- except KeyError: raise KeyError(f"key ... not found ...")
                .error ("KeyError: key " ++ k ++ " not found in message")
            | .done v => .ok (.resolved v)

/-! ## Handler registry (`self.handlers`, `add_handler`, `remove_handler`)

`self.handlers` is a `collections.defaultdict(list)` mapping event
classes to callback lists; modelled as an insertion-ordered association
list. Event classes and callback objects are identified by `Nat`. -/

/-- The handler registry `self.handlers`. -/
abbrev Handlers := List (Nat × List Nat)

/-- The callback list the dispatch and removal code reads for an event
type: `self.handlers[t]` when the key is present, `[]` otherwise. -/
def cbsOf (hs : Handlers) (t : Nat) : List Nat :=
  match hs with
  | [] => []
  | (t2, cbs) :: rest => if t2 = t then cbs else cbsOf rest t

/-- `self.handlers[t].append(h)` on the defaultdict: appends to the
existing entry, or creates a new entry `(t, [h])` at the end. -/
def appendCb (hs : Handlers) (t : Nat) (h : Nat) : Handlers :=
  match hs with
  | [] => [(t, [h])]
  | (t2, cbs) :: rest =>
      if t2 = t then (t2, cbs ++ [h]) :: rest
      else (t2, cbs) :: appendCb rest t h

/-- The `for obj in event_types: self.handlers[obj].append(handler)` loop
of the module branch of `add_handler`. -/
def appendCbAll (hs : Handlers) (ts : List Nat) (h : Nat) : Handlers :=
  match ts with
  | [] => hs
  | t :: rest => appendCbAll (appendCb hs t h) rest h

/-- One element of the `event_type_or_domain` list: a concrete event
class or a namespace module. -/
inductive RegTarget
  | etype (t : Nat)
  | domainMod (d : Domain)
deriving DecidableEq, Repr

/-- `add_handler(event_type_or_domain, handler)` after the non-list
argument has been wrapped in a list. `decl d` is the list of event
classes the module `d` declares (the `inspect.getmembers_static`
enumeration, an external schema collaborator). Note the `return`
inside the loop: a module target ends processing of the whole list. -/
def addHandler (decl : Domain → List Nat) (targets : List RegTarget)
    (h : Nat) (hs : Handlers) : Handlers :=
  match targets with
  | [] => hs
  | .etype t :: rest => addHandler decl rest h (appendCb hs t h)
  | .domainMod d :: _ => appendCbAll hs (decl d) h

/-- Phase 1 of `remove_handler` when a callback is given: for each entry,
`if handler in callbacks: self.handlers[event].remove(handler)` —
`list.remove` deletes only the first occurrence. -/
def removeCbOnce (hs : Handlers) (h : Nat) : Handlers :=
  hs.map (fun p => (p.1, if h ∈ p.2 then p.2.erase h else p.2))

/-- `del self.handlers[t]` guarded by `if t in self.handlers` (dict keys
are unique, so deleting the key deletes its one entry). -/
def delEntry (hs : Handlers) (t : Nat) : Handlers :=
  match hs with
  | [] => []
  | (k, cbs) :: rest => if k = t then delEntry rest t else (k, cbs) :: delEntry rest t

/-- The `for obj in event_types: ... del self.handlers[obj]` loop of the
module branch of `remove_handler`. -/
def delEntries (hs : Handlers) (ts : List Nat) : Handlers :=
  match ts with
  | [] => hs
  | t :: rest => delEntries (delEntry hs t) rest

/-- Phase 2 of `remove_handler`: processes the target list; as in
`add_handler`, a module target ends processing of the whole list. -/
def removeTargets (decl : Domain → List Nat) (targets : List RegTarget)
    (hs : Handlers) : Handlers :=
  match targets with
  | [] => hs
  | .etype t :: rest => removeTargets decl rest (delEntry hs t)
  | .domainMod d :: _ => delEntries hs (decl d)

/-- `remove_handler(event_type_or_domain, handler)` after list wrapping:
the optional callback is first removed (once) from every list where
present, then the per-type entries of the targets are deleted. -/
def removeHandler (decl : Domain → List Nat) (targets : List RegTarget)
    (hOpt : Option Nat) (hs : Handlers) : Handlers :=
  let hs1 := match hOpt with
    | some h => removeCbOnce hs h
    | none => hs
  removeTargets decl targets hs1

/-- The targets `add_handler`/`remove_handler` actually process: the
prefix of the list up to and including the first module target (the
`return` inside the loop skips everything after it). -/
def processedTargets : List RegTarget → List RegTarget
  | [] => []
  | .etype t :: rest => .etype t :: processedTargets rest
  | .domainMod d :: _ => [.domainMod d]

/-- The concrete event classes a target list resolves to: a concrete
type stands for itself, a module for every event class it declares. -/
def resolveTargets (decl : Domain → List Nat) : List RegTarget → List Nat
  | [] => []
  | .etype t :: rest => t :: resolveTargets decl rest
  | .domainMod d :: rest => decl d ++ resolveTargets decl rest

/-! ## Reconciliation pass (`_register_handlers`) -/

/-- The registry state `_register_handlers` reads and writes:
`self.handlers` and `self.enabled_domains`. -/
structure Registry where
  handlers : Handlers
  enabled : List Domain
deriving DecidableEq, Repr

/-- The pruning step under the handlers lock: every key whose callback
list has length zero is popped from `self.handlers`. -/
def pruneEmpty (hs : Handlers) : Handlers :=
  hs.filter (fun p => !p.2.isEmpty)

/-- `list(dict.keys())` for the association list. -/
def keysOf (hs : Handlers) : List Nat :=
  hs.map Prod.fst

/-- The `for event_type in handlers_snapshot` loop: `prunedKeys` is the
key set of `self.handlers` after pruning (not mutated further by the
loop), `domOf t` is `util.cdp_get_module(t.__module__)`, `ok d` tells
whether `self.send(d.enable(), _is_update=True)` succeeds. Returns the
final `self.enabled_domains` and the temp `enabled_domains` copy.
Single-threaded: the re-check under the lock before appending always
passes, so `should_enable` is true whenever the append runs. -/
def regLoop (ok : Domain → Bool) (domOf : Nat → Domain)
    (prunedKeys : List Nat) :
    List Nat → List Domain → List Domain → List Domain × List Domain
  | [], enabled, temp => (enabled, temp)
  | t :: rest, enabled, temp =>
    if t ∈ prunedKeys then
      let d := domOf t
      if d ∈ enabled then
        -- domain used by a handler: drop it from the temp copy
        -- (guarded `remove`; `List.erase` is a no-op when absent)
        regLoop ok domOf prunedKeys rest enabled (temp.erase d)
      else if d ∈ alwaysOnDomains then
        -- by default enabled
        regLoop ok domOf prunedKeys rest enabled temp
      else
        if ok d then
          regLoop ok domOf prunedKeys rest (enabled ++ [d]) temp
        else
          -- send failed: roll the tentative append back
          regLoop ok domOf prunedKeys rest ((enabled ++ [d]).erase d) temp
    else
      -- event type was pruned away: continue
      regLoop ok domOf prunedKeys rest enabled temp

/-- The final sweep: every domain still in the temp copy is removed from
`self.enabled_domains` (`remove` with `ValueError` swallowed = `erase`). -/
def finalSweep : List Domain → List Domain → List Domain
  | enabled, [] => enabled
  | enabled, ed :: rest => finalSweep (enabled.erase ed) rest

/-- `_register_handlers` (single-threaded): copy `enabled_domains`,
snapshot and prune `self.handlers`, run the main loop, then sweep the
leftover temp entries out of `self.enabled_domains`. -/
def registerHandlers (ok : Domain → Bool) (domOf : Nat → Domain)
    (r : Registry) : Registry :=
  let temp := r.enabled
  let snapshot := keysOf r.handlers
  let pruned := pruneEmpty r.handlers
  let out := regLoop ok domOf (keysOf pruned) snapshot r.enabled temp
  { handlers := pruned, enabled := finalSweep out.1 out.2 }

/-- The namespaces having at least one event type with a non-empty
handler list (each pruned-surviving key mapped to its module). -/
def impliedDomains (domOf : Nat → Domain) (hs : Handlers) : List Domain :=
  (pruneEmpty hs).map (fun p => domOf p.1)

/-- The domains the main loop of `_register_handlers` considers: the
modules of the snapshot keys that survived pruning, in loop order. -/
def dsOf (domOf : Nat → Domain) (prunedKeys : List Nat) : List Nat → List Domain
  | [] => []
  | t :: rest =>
    if t ∈ prunedKeys then domOf t :: dsOf domOf prunedKeys rest
    else dsOf domOf prunedKeys rest

/-! ## Listener loop (`_listener`) and send-path id assignment -/

/-- A pending `Transaction` as stored in `self.mapper`: its completion
slot and its codec second step. -/
structure TxPending (V Raw : Type) where
  slot : Slot V
  parse : Raw → ParseOutcome V

/-- A decoded inbound frame: a correlated reply (`"id" in message`), an
event whose external decode raises (`parse_json_event` failure), or a
decoded event of some concrete type. -/
inductive Frame (Raw : Type)
  | reply (id : Nat) (resp : Response Raw)
  | badEvent
  | event (t : Nat)

/-- Outcome of invoking one callback on one event (covering both the
synchronous call and the completion of a scheduled asynchronous task):
it returns normally or raises. -/
inductive CbResult
  | ok
  | exn
deriving DecidableEq, Repr

/-- The `for callback in callbacks` dispatch loop: every callback is
invoked in order; `except Exception` turns a raising callback into a
logged warning. Returns the invocation order and the number of logged
failures. -/
def dispatchCallbacks (beh : Nat → CbResult) : List Nat → List Nat × Nat
  | [] => ([], 0)
  | c :: rest =>
      let out := dispatchCallbacks beh rest
      (c :: out.1, match beh c with
        | .ok => out.2
        | .exn => out.2 + 1)

/-- Listener-visible connection state: the pending table `self.mapper`,
the handler registry, plus observable traces (callback invocations in
order, count of logged warnings). -/
structure LState (V Raw : Type) where
  mapper : List (Nat × TxPending V Raw)
  handlers : Handlers
  invoked : List Nat
  warnings : Nat

/-- `self.mapper.pop(id)`: the popped transaction and the table without
its entry, or `none` (a `KeyError`) when the id is absent. -/
def popMapper {V Raw : Type} :
    List (Nat × TxPending V Raw) → Nat →
    Option (TxPending V Raw × List (Nat × TxPending V Raw))
  | [], _ => none
  | (i, tx) :: rest, id =>
    if i = id then some (tx, rest)
    else
      match popMapper rest id with
      | none => none
      | some (t, m) => some (t, (i, tx) :: m)

/-- Processing of one decoded frame by the listener loop body. `beh`
gives each callback's outcome on the current event. `Except.error` is an
exception escaping the loop body (only the re-raised `KeyError` of a
malformed correlated reply can do that). -/
def processFrame {V Raw : Type} (beh : Nat → CbResult)
    (s : LState V Raw) : Frame Raw → Except String (LState V Raw)
  | .reply id resp =>
    match popMapper s.mapper id with
    | none =>
        -- except KeyError: logger.warning("Received message with unknown id"); continue
        .ok { s with warnings := s.warnings + 1 }
    | some (tx, m2) =>
        match Transaction.call tx.parse tx.slot resp with
        | .error e => .error e
        | .ok _ => .ok { s with mapper := m2 }
  | .badEvent =>
      -- decode failure: logger.info(...); continue
      .ok { s with warnings := s.warnings + 1 }
  | .event t =>
      -- snapshot under the handlers lock, then dispatch
      let callbacks := cbsOf s.handlers t
      let out := dispatchCallbacks beh callbacks
      .ok { s with invoked := s.invoked ++ out.1,
                   warnings := s.warnings + out.2 }

/-- The listener loop over a finite run of received frames: stops with
`Except.error` when an exception escapes a loop body. -/
def processFrames {V Raw : Type} (beh : Nat → CbResult)
    (s : LState V Raw) : List (Frame Raw) → Except String (LState V Raw)
  | [] => .ok s
  | f :: rest =>
    match processFrame beh s f with
    | .error e => .error e
    | .ok s2 => processFrames beh s2 rest

/-- The id-assignment state of `send`: the `itertools.count` counter and
the keys of `self.mapper` in insertion order. -/
structure SendState where
  counter : Nat
  mapperKeys : List Nat
deriving DecidableEq, Repr

/-- The critical section of `send` under `self._lock`:
`the_id = next(self.__count__); tx.id = the_id; self.mapper[the_id] = tx`. -/
def sendAssignId (s : SendState) : SendState × Nat :=
  let theId := s.counter
  ({ counter := s.counter + 1, mapperKeys := s.mapperKeys ++ [theId] }, theId)

/-- `n` successive `send` calls on one connection: the final state and
the list of correlation ids assigned, in call order. -/
def runSends (s : SendState) : Nat → SendState × List Nat
  | 0 => (s, [])
  | n + 1 =>
    let out := sendAssignId s
    let rec2 := runSends out.1 n
    (rec2.1, out.2 :: rec2.2)

/-! ## Theorems -/

theorem runSends_snd (n : Nat) : ∀ s : SendState, (runSends s n).2 = List.range' s.counter n := by
  induction n with
  | zero => intro s; rfl
  | succ n ih =>
    intro s
    simp [runSends, sendAssignId, ih, List.range'_succ]

/-- C2: once a Transaction is settled (`self.done()` is true),
`Transaction.__call__` returns immediately for any reply frame: no
exception is raised and the slot keeps its settled value or error. -/
theorem transaction_call_settled_noop {V Raw : Type} (parse : Raw → ParseOutcome V)
    (slot : Slot V) (resp : Response Raw) (h : slot.isDone = true) :
    Transaction.call parse slot resp = .ok slot := by
  simp [Transaction.call, h]

theorem transaction_call_settled_noop_witness :
    Slot.isDone (V := Nat) (.resolved 42) = true ∧
      Transaction.call (fun r : Nat => ParseOutcome.done r) (Slot.resolved 42)
        ⟨some ⟨some "boom", some (-32000)⟩, none⟩ = .ok (.resolved 42) :=
  ⟨rfl, transaction_call_settled_noop _ _ _ rfl⟩

/-- C4: on a pending Transaction, a reply carrying a `result` field (and
no `error` field) is fed to the codec second step: a missing expected
key raises the malformed-response `KeyError`, otherwise the decoded
value resolves the Transaction. -/
theorem transaction_call_result_branch {V Raw : Type} (parse : Raw → ParseOutcome V)
    (resp : Response Raw) (r : Raw) (he : resp.error = none) (hr : resp.result = some r) :
    (∀ k, parse r = .keyError k →
      Transaction.call parse .pending resp =
        .error ("KeyError: key " ++ k ++ " not found in message")) ∧
    (∀ v, parse r = .done v →
      Transaction.call parse .pending resp = .ok (.resolved v)) := by
  constructor
  · intro k hk
    simp [Transaction.call, Slot.isDone, he, hr, hk]
  · intro v hv
    simp [Transaction.call, Slot.isDone, he, hr, hv]

theorem transaction_call_result_branch_witness :
    Transaction.call (fun r : Nat => ParseOutcome.done (r + 1)) (Slot.pending)
      ⟨none, some 41⟩ = .ok (.resolved 42) :=
  (transaction_call_result_branch (fun r : Nat => ParseOutcome.done (r + 1))
    ⟨none, some 41⟩ 41 rfl rfl).2 42 rfl

/-- C5 (counterexample): a payload whose `code` is present but equal to
`0` renders as the message alone — `__str__` tests `if self.code`
(truthiness), not presence — contradicting the claim that every present
code is rendered as `"<message> [code: <code>]"`. -/
theorem protocol_exception_str_code_zero :
    (ProtocolException.ofDict ⟨some "x", some 0⟩).str = "x" ∧
      (ProtocolException.ofDict ⟨some "x", some 0⟩).str ≠ "x [code: 0]" := by
  exact ⟨rfl, by decide⟩

/-- C5 (amended): for a payload carrying a message and a nonzero (hence
truthy) code, the rendered string form is `"<message> [code: <code>]"`;
a present but zero code, like an absent one, renders the message
alone. -/
theorem protocol_exception_str_rendering (m : String) (c : Int) (hc : c ≠ 0) :
    (ProtocolException.ofDict ⟨some m, some c⟩).str =
      m ++ " [code: " ++ toString c ++ "]" := by
  have h : (c != 0) = true := by simpa using hc
  simp [ProtocolException.ofDict, ProtocolException.str, pyTruthyOptInt,
    pyStrOptString, pyStrOptInt, h]

theorem protocol_exception_str_rendering_witness :
    ((-32000 : Int) ≠ 0) ∧
      (ProtocolException.ofDict ⟨some "boom", some (-32000)⟩).str =
        "boom [code: -32000]" :=
  ⟨by decide, by rw [protocol_exception_str_rendering "boom" (-32000) (by decide)]; rfl⟩

/-- C8: the correlation ids assigned by successive `send` calls are the
consecutive values of the monotonic counter: strictly increasing, and no
id is ever assigned twice. -/
theorem send_ids_strictly_increasing (s : SendState) (n : Nat) :
    List.Pairwise (fun a b => a < b) (runSends s n).2 ∧ (runSends s n).2.Nodup := by
  rw [runSends_snd n s]
  exact ⟨List.pairwise_lt_range' _ _,
    (List.pairwise_lt_range' _ _).imp (fun hlt => Nat.ne_of_lt hlt)⟩

/-- C10: immediately after `_register_handlers` completes, the handler
registry contains no event type with an empty callback list: the pass
pruned every such entry and added none. -/
theorem register_handlers_no_empty_lists (ok : Domain → Bool) (domOf : Nat → Domain)
    (r : Registry) (t : Nat) (cbs : List Nat)
    (h : (t, cbs) ∈ (registerHandlers ok domOf r).handlers) : cbs ≠ [] := by
  have h2 : (t, cbs) ∈ pruneEmpty r.handlers := h
  intro hnil
  subst hnil
  simp [pruneEmpty, List.mem_filter] at h2

theorem register_handlers_no_empty_lists_witness :
    (2, [3]) ∈ (registerHandlers (fun _ => true) (fun n => Domain.other n)
        ⟨[(1, []), (2, [3])], []⟩).handlers ∧ ([3] : List Nat) ≠ [] :=
  ⟨by decide, register_handlers_no_empty_lists (fun _ => true) (fun n => Domain.other n)
    ⟨[(1, []), (2, [3])], []⟩ 2 [3] (by decide)⟩

/-- C1 (counterexample): always-on namespaces are never members of
`enabled_domains`. With a handler registered on an event type of the
always-on `cdp.target` namespace and an empty subscribed set, the pass
leaves the subscribed set empty, while the claim demands it equal
`alwaysOn ∪ {target}`, which contains `target`. -/
theorem register_handlers_always_on_never_added :
    Domain.target ∈ alwaysOnDomains ∧
      Domain.target ∈ impliedDomains (fun _ => Domain.target) [(0, [1])] ∧
      (registerHandlers (fun _ => true) (fun _ => Domain.target)
        ⟨[(0, [1])], []⟩).enabled = [] := by
  decide

/-- C3 (counterexample): the `return` inside the target loop of
`add_handler` ends processing at the first namespace-module target:
with targets `[module declaring {1}, event type 2]`, the callback is
never appended for event type `2`, while the claim demands it be
appended for every target in the list. -/
theorem add_handler_stops_after_module_target :
    addHandler (fun _ => [1]) [RegTarget.domainMod (Domain.other 0), RegTarget.etype 2]
        7 [] = [(1, [7])] ∧
      (7 : Nat) ∉ cbsOf (addHandler (fun _ => [1])
        [RegTarget.domainMod (Domain.other 0), RegTarget.etype 2] 7 []) 2 := by
  decide

/-- C9 (counterexample): `list.remove` deletes only the first occurrence,
so a callback occurring twice in one event type's list survives once:
removing callback `7` from `{1 ↦ [7, 7]}` (with unrelated target `2`)
leaves `[7]`, while the claim demands removal wherever present including
duplicate occurrences. -/
theorem remove_handler_keeps_duplicate_occurrence :
    cbsOf (removeHandler (fun _ => []) [RegTarget.etype 2] (some 7) [(1, [7, 7])]) 1
        = [7] ∧
      (7 : Nat) ∈ cbsOf (removeHandler (fun _ => []) [RegTarget.etype 2] (some 7)
        [(1, [7, 7])]) 1 := by
  decide

theorem cbsOf_appendCb (hs : Handlers) (t h t2 : Nat) :
    cbsOf (appendCb hs t h) t2 =
      if t = t2 then cbsOf hs t2 ++ [h] else cbsOf hs t2 := by
  induction hs with
  | nil => by_cases ht : t = t2 <;> simp [appendCb, cbsOf, ht]
  | cons p rest ih =>
    obtain ⟨k, cbs⟩ := p
    by_cases hk : k = t
    · subst hk
      by_cases ht : k = t2 <;> simp [appendCb, cbsOf, ht]
    · by_cases ht2 : k = t2
      · subst ht2
        have hne : ¬ t = k := fun hh => hk hh.symm
        simp [appendCb, cbsOf, hk, hne]
      · simp [appendCb, cbsOf, hk, ht2, ih]

theorem cbsOf_appendCbAll (ts : List Nat) (hs : Handlers) (h t : Nat) :
    cbsOf (appendCbAll hs ts h) t = cbsOf hs t ++ List.replicate (ts.count t) h := by
  induction ts generalizing hs with
  | nil => simp [appendCbAll]
  | cons t1 rest ih =>
    by_cases ht : t1 = t
    · subst ht
      simp [appendCbAll, ih, cbsOf_appendCb, List.count_cons, List.replicate_succ]
    · simp [appendCbAll, ih, cbsOf_appendCb, ht, List.count_cons]

/-- C3 (amended): `add_handler` processes the target list only up to and
including the first namespace-module target (the `return` inside the
loop); within that effective prefix, the callback is appended once per
resolution of each event type, a module expanding to every event type it
declares. For a list without module targets, or a single target, this is
the original claim. -/
theorem add_handler_appends_resolved_targets (decl : Domain → List Nat)
    (targets : List RegTarget) (h : Nat) (hs : Handlers) (t : Nat) :
    cbsOf (addHandler decl targets h hs) t =
      cbsOf hs t ++
        List.replicate ((resolveTargets decl (processedTargets targets)).count t) h := by
  induction targets generalizing hs with
  | nil => simp [addHandler, processedTargets, resolveTargets]
  | cons tgt rest ih =>
    cases tgt with
    | etype t1 =>
      by_cases ht : t1 = t
      · subst ht
        simp [addHandler, processedTargets, resolveTargets, ih, cbsOf_appendCb,
          List.count_cons, List.replicate_succ]
      · simp [addHandler, processedTargets, resolveTargets, ih, cbsOf_appendCb, ht,
          List.count_cons]
    | domainMod d =>
      simp [addHandler, processedTargets, resolveTargets, cbsOf_appendCbAll]

theorem cbsOf_removeCbOnce (hs : Handlers) (h t : Nat) :
    cbsOf (removeCbOnce hs h) t = (cbsOf hs t).erase h := by
  induction hs with
  | nil => simp [removeCbOnce, cbsOf]
  | cons p rest ih =>
    obtain ⟨k, cbs⟩ := p
    by_cases hk : k = t
    · subst hk
      by_cases hm : h ∈ cbs <;> simp [removeCbOnce, cbsOf, hm, List.erase_of_not_mem]
    · simp only [removeCbOnce, List.map_cons, cbsOf, hk, if_false]
      exact ih

theorem cbsOf_delEntry (hs : Handlers) (t t2 : Nat) :
    cbsOf (delEntry hs t) t2 = if t2 = t then [] else cbsOf hs t2 := by
  induction hs with
  | nil => simp [delEntry, cbsOf]
  | cons p rest ih =>
    obtain ⟨k, cbs⟩ := p
    simp only [delEntry]
    by_cases hk : k = t
    · simp only [if_pos hk, ih]
      by_cases ht2 : t2 = t
      · simp [ht2]
      · have hk2 : ¬ k = t2 := by
          intro hh
          apply ht2
          rw [← hh]
          exact hk
        simp [cbsOf, ht2, hk2]
    · simp only [if_neg hk, cbsOf]
      by_cases hk2 : k = t2
      · have ht2 : ¬ t2 = t := by
          intro hh
          apply hk
          rw [hk2, hh]
        simp [hk2, ht2]
      · simp [hk2, ih]

theorem cbsOf_delEntries (ts : List Nat) (hs : Handlers) (t : Nat) :
    cbsOf (delEntries hs ts) t = if t ∈ ts then [] else cbsOf hs t := by
  induction ts generalizing hs with
  | nil => simp [delEntries]
  | cons t1 rest ih =>
    simp only [delEntries]
    rw [ih]
    by_cases h1 : t ∈ rest
    · simp [h1]
    · by_cases h2 : t = t1 <;> simp [h1, h2, cbsOf_delEntry]

theorem cbsOf_removeTargets (decl : Domain → List Nat) (targets : List RegTarget)
    (hs : Handlers) (t : Nat) :
    cbsOf (removeTargets decl targets hs) t =
      if t ∈ resolveTargets decl (processedTargets targets) then []
      else cbsOf hs t := by
  induction targets generalizing hs with
  | nil => simp [removeTargets, processedTargets, resolveTargets]
  | cons tgt rest ih =>
    cases tgt with
    | etype t1 =>
      simp only [removeTargets, processedTargets, resolveTargets]
      rw [ih]
      by_cases h1 : t ∈ resolveTargets decl (processedTargets rest)
      · simp [h1]
      · by_cases h2 : t = t1 <;> simp [h1, h2, cbsOf_delEntry]
    | domainMod d =>
      simp only [removeTargets, processedTargets, resolveTargets]
      rw [cbsOf_delEntries]
      simp

/-- C9 (amended): `remove_handler` with a callback removes only the
first occurrence of the callback from each event type's list where
present (`list.remove`); a duplicate occurrence within one list
survives. The per-type entries of the targets — up to and including the
first namespace-module target — are deleted entirely regardless. -/
theorem remove_handler_erases_first_occurrence (decl : Domain → List Nat)
    (targets : List RegTarget) (h : Nat) (hs : Handlers) (t : Nat) :
    cbsOf (removeHandler decl targets (some h) hs) t =
      if t ∈ resolveTargets decl (processedTargets targets) then []
      else (cbsOf hs t).erase h := by
  simp only [removeHandler]
  rw [cbsOf_removeTargets, cbsOf_removeCbOnce]

theorem popMapper_eq_none {V Raw : Type} (m : List (Nat × TxPending V Raw)) (id : Nat)
    (h : id ∉ m.map Prod.fst) : popMapper m id = none := by
  induction m with
  | nil => rfl
  | cons p rest ih =>
    obtain ⟨k, tx⟩ := p
    simp only [List.map_cons, List.mem_cons, not_or] at h
    have hk : ¬ k = id := fun he => h.1 he.symm
    simp [popMapper, hk, ih h.2]

/-- C6: a reply frame whose correlation id has no matching Transaction
in the pending table is dropped: the listener logs the anomaly (one
warning), no exception escapes, the state is otherwise unchanged, and
the remaining frames are processed as if the stale frame had never
arrived. -/
theorem listener_drops_unknown_id {V Raw : Type} (beh : Nat → CbResult)
    (s : LState V Raw) (id : Nat) (resp : Response Raw) (rest : List (Frame Raw))
    (h : id ∉ s.mapper.map Prod.fst) :
    processFrame beh s (.reply id resp) = .ok { s with warnings := s.warnings + 1 } ∧
      processFrames beh s (.reply id resp :: rest) =
        processFrames beh { s with warnings := s.warnings + 1 } rest := by
  have hp := popMapper_eq_none s.mapper id h
  constructor
  · simp [processFrame, hp]
  · simp [processFrames, processFrame, hp]

theorem listener_drops_unknown_id_witness :
    ((999 : Nat) ∉ (([] : List (Nat × TxPending Nat Nat)).map Prod.fst)) ∧
      processFrames (fun _ => CbResult.ok) (⟨[], [], [], 0⟩ : LState Nat Nat)
          [Frame.reply 999 ⟨none, none⟩, Frame.badEvent] = .ok ⟨[], [], [], 2⟩ := by
  refine ⟨by simp, ?_⟩
  rw [(listener_drops_unknown_id (fun _ => CbResult.ok) (⟨[], [], [], 0⟩ : LState Nat Nat)
    999 ⟨none, none⟩ [Frame.badEvent] (by simp)).2]
  rfl

theorem dispatchCallbacks_fst (beh : Nat → CbResult) (cbs : List Nat) :
    (dispatchCallbacks beh cbs).1 = cbs := by
  induction cbs with
  | nil => rfl
  | cons c rest ih => simp [dispatchCallbacks, ih]

/-- C7: dispatching an event frame invokes every registered callback for
the event type, in registration order, whatever each callback does —
a raising callback (any `beh`) never prevents the remaining callbacks
from running and never terminates the listener loop: the frame always
yields a normal state (failures only counted as logged warnings) and the
remaining frames are processed. -/
theorem listener_invokes_all_callbacks {V Raw : Type} (beh : Nat → CbResult)
    (s : LState V Raw) (t : Nat) (rest : List (Frame Raw)) :
    ∃ w, processFrame beh s (.event t) =
        .ok { s with invoked := s.invoked ++ cbsOf s.handlers t, warnings := w } ∧
      processFrames beh s (.event t :: rest) =
        processFrames beh
          { s with invoked := s.invoked ++ cbsOf s.handlers t, warnings := w } rest := by
  refine ⟨s.warnings + (dispatchCallbacks beh (cbsOf s.handlers t)).2, ?_, ?_⟩
  · simp [processFrame, dispatchCallbacks_fst]
  · simp [processFrames, processFrame, dispatchCallbacks_fst]

theorem finalSweep_mem (d : Domain) (tp : List Domain) :
    ∀ en : List Domain, en.Nodup → (d ∈ finalSweep en tp ↔ d ∈ en ∧ d ∉ tp) := by
  induction tp with
  | nil => intro en _; simp [finalSweep]
  | cons ed rest ih =>
    intro en hen
    simp only [finalSweep]
    rw [ih (en.erase ed) (hen.erase ed), hen.mem_erase_iff]
    simp only [List.mem_cons, not_or]
    tauto

theorem regLoop_sweep_mem (ok : Domain → Bool) (domOf : Nat → Domain) (pk : List Nat)
    (hok : ∀ d, ok d = true) :
    ∀ (snap : List Nat) (en tp : List Domain), en.Nodup → tp.Nodup →
      (∀ x ∈ tp, x ∈ en) → ∀ d : Domain,
      (d ∈ finalSweep (regLoop ok domOf pk snap en tp).1
            (regLoop ok domOf pk snap en tp).2 ↔
        (d ∈ en ∧ (d ∉ tp ∨ d ∈ dsOf domOf pk snap)) ∨
        (d ∈ dsOf domOf pk snap ∧ d ∉ alwaysOnDomains ∧ d ∉ en)) := by
  intro snap
  induction snap with
  | nil =>
    intro en tp hen htp hsub d
    simp only [regLoop, dsOf]
    rw [finalSweep_mem d tp en hen]
    simp only [List.not_mem_nil]
    tauto
  | cons t rest ih =>
    intro en tp hen htp hsub d
    by_cases hpk : t ∈ pk
    · simp only [regLoop, dsOf, if_pos hpk]
      by_cases h1 : domOf t ∈ en
      · simp only [if_pos h1]
        rw [ih en (tp.erase (domOf t)) hen (htp.erase _)
          (fun x hx => hsub x (List.mem_of_mem_erase hx)) d]
        have he : d ∈ tp.erase (domOf t) ↔ d ≠ domOf t ∧ d ∈ tp := htp.mem_erase_iff
        by_cases hd : d = domOf t
        · rw [hd] at he ⊢
          simp only [List.mem_cons, he]
          tauto
        · simp only [List.mem_cons, he, hd]
          tauto
      · simp only [if_neg h1]
        by_cases h2 : domOf t ∈ alwaysOnDomains
        · simp only [if_pos h2]
          rw [ih en tp hen htp hsub d]
          by_cases hd : d = domOf t
          · rw [hd]
            simp only [List.mem_cons]
            tauto
          · simp only [List.mem_cons, hd]
            tauto
        · simp only [if_neg h2, hok (domOf t), if_true]
          have hnd : (en ++ [domOf t]).Nodup := by
            simp [List.nodup_append, hen, h1]
          rw [ih (en ++ [domOf t]) tp hnd htp
            (fun x hx => List.mem_append_left _ (hsub x hx)) d]
          have hmem : ∀ x : Domain, x ∈ en ++ [domOf t] ↔ x ∈ en ∨ x = domOf t := by
            intro x
            simp [List.mem_append]
          by_cases hd : d = domOf t
          · have hnt : d ∉ tp := by
              intro hx
              apply h1
              rw [← hd]
              exact hsub d hx
            rw [hd] at hnt ⊢
            simp only [List.mem_cons, hmem]
            tauto
          · simp only [List.mem_cons, hmem, hd]
            tauto
    · simp only [regLoop, dsOf, if_neg hpk]
      exact ih en tp hen htp hsub d

theorem mem_dsOf (domOf : Nat → Domain) (pk : List Nat) (d : Domain) :
    ∀ snap : List Nat,
      (d ∈ dsOf domOf pk snap ↔ ∃ t, t ∈ snap ∧ t ∈ pk ∧ domOf t = d) := by
  intro snap
  induction snap with
  | nil => simp [dsOf]
  | cons t rest ih =>
    by_cases hpk : t ∈ pk
    · simp only [dsOf, if_pos hpk, List.mem_cons, ih]
      constructor
      · rintro (hd | ⟨t2, ht2, hp2, hd2⟩)
        · exact ⟨t, Or.inl rfl, hpk, hd.symm⟩
        · exact ⟨t2, Or.inr ht2, hp2, hd2⟩
      · rintro ⟨t2, (rfl | ht2), hp2, hd2⟩
        · exact Or.inl hd2.symm
        · exact Or.inr ⟨t2, ht2, hp2, hd2⟩
    · simp only [dsOf, if_neg hpk, ih, List.mem_cons]
      constructor
      · rintro ⟨t2, ht2, hp2, hd2⟩
        exact ⟨t2, Or.inr ht2, hp2, hd2⟩
      · rintro ⟨t2, (rfl | ht2), hp2, hd2⟩
        · exact absurd hp2 hpk
        · exact ⟨t2, ht2, hp2, hd2⟩

theorem mem_impliedDomains (domOf : Nat → Domain) (hs : Handlers) (d : Domain) :
    d ∈ impliedDomains domOf hs ↔
      ∃ t, t ∈ keysOf (pruneEmpty hs) ∧ domOf t = d := by
  simp only [impliedDomains, keysOf, List.mem_map]
  constructor
  · rintro ⟨p, hp, hd⟩
    exact ⟨p.1, ⟨p, hp, rfl⟩, hd⟩
  · rintro ⟨t, ⟨p, hp, hp1⟩, hd⟩
    exact ⟨p, hp, by rw [hp1]; exact hd⟩

theorem keysOf_pruneEmpty_subset (hs : Handlers) :
    ∀ t, t ∈ keysOf (pruneEmpty hs) → t ∈ keysOf hs := by
  intro t ht
  simp only [keysOf, pruneEmpty, List.mem_map] at ht ⊢
  obtain ⟨p, hp, hp1⟩ := ht
  exact ⟨p, (List.mem_filter.mp hp).1, hp1⟩

theorem dsOf_eq_implied (domOf : Nat → Domain) (hs : Handlers) (d : Domain) :
    d ∈ dsOf domOf (keysOf (pruneEmpty hs)) (keysOf hs) ↔
      d ∈ impliedDomains domOf hs := by
  rw [mem_dsOf, mem_impliedDomains]
  constructor
  · rintro ⟨t, _, htp, hd⟩
    exact ⟨t, htp, hd⟩
  · rintro ⟨t, htp, hd⟩
    exact ⟨t, keysOf_pruneEmpty_subset hs t htp, htp, hd⟩

/-- C1 (amended): immediately after a reconciliation pass in which every
enable command succeeds, starting from a duplicate-free subscribed set,
the subscribed-namespace set equals (previously subscribed namespaces
with ≥1 non-empty handler list) ∪ (namespaces with ≥1 non-empty handler
list that are not always-on). The always-on namespaces are never added
to the subscribed set — the pass skips them as enabled by default — so
they are members only of the claim's union, not of the computed set. -/
theorem register_handlers_subscription_set (ok : Domain → Bool) (domOf : Nat → Domain)
    (r : Registry) (hok : ∀ d, ok d = true) (hen : r.enabled.Nodup) (d : Domain) :
    d ∈ (registerHandlers ok domOf r).enabled ↔
      (d ∈ r.enabled ∧ d ∈ impliedDomains domOf r.handlers) ∨
      (d ∈ impliedDomains domOf r.handlers ∧ d ∉ alwaysOnDomains) := by
  have hmain := regLoop_sweep_mem ok domOf (keysOf (pruneEmpty r.handlers)) hok
    (keysOf r.handlers) r.enabled r.enabled hen hen (fun x hx => hx) d
  rw [dsOf_eq_implied] at hmain
  have hrw : (registerHandlers ok domOf r).enabled =
      finalSweep
        (regLoop ok domOf (keysOf (pruneEmpty r.handlers)) (keysOf r.handlers)
          r.enabled r.enabled).1
        (regLoop ok domOf (keysOf (pruneEmpty r.handlers)) (keysOf r.handlers)
          r.enabled r.enabled).2 := rfl
  rw [hrw, hmain]
  by_cases h1 : d ∈ r.enabled <;> tauto

theorem register_handlers_subscription_set_witness :
    Domain.other 1 ∈ (registerHandlers (fun _ => true) (fun n => Domain.other n)
      ⟨[(1, [5])], [Domain.other 9]⟩).enabled :=
  (register_handlers_subscription_set (fun _ => true) (fun n => Domain.other n)
    ⟨[(1, [5])], [Domain.other 9]⟩ (fun _ => rfl) (by decide) (Domain.other 1)).mpr
    (Or.inr ⟨by decide, by decide⟩)

end Nodriver
